import Mathlib

/-!
Verification development for the `langgraph-supervisor` example repository.

The repository's own code (`src/langgraph_supervisor/example-1.py`) is a
driver script around the external `langgraph_supervisor` package: it builds a
supervisor workflow over two worker agents, exports a diagnostic diagram,
invokes the workflow on a query, and formats the resulting transcript.

Part 1 below embeds the orchestration core (registry, message model, handoff
protocol, history aggregation, graph builder, runtime loop).  That core is not
present in the repository's sources — only its caller is — so those
definitions are modelled from the design specification.  Part 2 embeds, from
the script's source, the pure fragments of the driver: `format_conversation`,
the `final_message` extraction, and the guarded diagram-export section.
-/

namespace LGS

/-! ## Part 1: the orchestration core, modelled from the spec -/

/-- Modelled from the spec: the kind tag of a transcript message, the tagged
union `{human, ai, handoff_request, handoff_response}`. -/
inductive MsgKind where
  | human
  | ai
  | handoffRequest
  | handoffResponse
deriving DecidableEq, Repr

/-- Modelled from the spec: the mode-independent payload of a message —
`sender` (agent name or "user"), `recipient` (agent name or absent) and
`content`. -/
structure MsgCore where
  kind : MsgKind
  sender : String
  recipient : Option String
  content : String
deriving DecidableEq, Repr

/-- Modelled from the spec: a transcript message — a payload plus the
`sequence_index` assigned at append time. -/
structure Message where
  core : MsgCore
  seqIndex : Nat
deriving DecidableEq, Repr

/-- The sender of a transcript message. -/
def Message.sender (m : Message) : String := m.core.sender

/-- Modelled from the spec: `output_mode`, the history-aggregation policy. -/
inductive OutputMode where
  | fullHistory
  | lastMessage
deriving DecidableEq, Repr

/-- Modelled from the spec: the build-time workflow definition — the ordered
registry of worker names, the reserved supervisor name, the aggregation mode,
the handoff-back option and the iteration limit. -/
structure WorkflowConfig where
  workers : List String
  supName : String
  outputMode : OutputMode
  addHandoffBack : Bool
  iterationLimit : Nat
deriving Repr

/-- Modelled from the spec: the error taxonomy relevant to one invocation. -/
inductive RuntimeError where
  | unknownAgentRoute (name : String)
  | agentExecution
  | iterationLimitExceeded
deriving DecidableEq, Repr

/-- Modelled from the spec: invocation status. -/
inductive Status where
  | running
  | completed
  | failed (e : RuntimeError)
  | cancelled
deriving DecidableEq, Repr

/-- Modelled from the spec: `ConversationState` — the append-only transcript,
the active-agent cursor, the step counter and the status; `startIndex` is the
invocation's starting sequence index.  The ghost field `log` is the complete
append log of every payload produced by any agent, before history
aggregation decides visibility. -/
structure ConvState where
  messages : List Message
  log : List MsgCore
  activeAgent : String
  stepCount : Nat
  status : Status
  startIndex : Nat
deriving DecidableEq, Repr

/-- Modelled from the spec: the opaque supervisor step result — a routing
decision, a final answer, or a collaborator failure. -/
inductive SupStep where
  | handoff (target : String) (reason : String)
  | finalAnswer (content : String)
  | failure
deriving DecidableEq, Repr

/-- Modelled from the spec: the opaque worker step result — the contents of
the messages the worker emitted, or a collaborator failure. -/
inductive WorkStep where
  | emit (contents : List String)
  | failure
deriving DecidableEq, Repr

/-- Modelled from the spec: append a produced payload to the visible
transcript (assigning the next contiguous `sequence_index`) and to the
append log. -/
def appendProduced (s : ConvState) (c : MsgCore) : ConvState :=
  { s with
    messages := s.messages ++ [⟨c, s.startIndex + s.messages.length⟩],
    log := s.log ++ [c] }

/-- Modelled from the spec: record a produced payload in the append log only
(a condensed-mode drop: the payload is produced but not folded into the
visible transcript). -/
def logOnly (s : ConvState) (c : MsgCore) : ConvState :=
  { s with log := s.log ++ [c] }

/-- The payload of a worker's emitted ai message. -/
def workerMsg (w : String) (content : String) : MsgCore :=
  ⟨MsgKind.ai, w, none, content⟩

/-- Modelled from the spec: the History Aggregator.  In `full_history` mode
every emitted worker message is folded into the transcript; in `last_message`
mode only the worker's final message is folded, the intermediate ones being
recorded in the append log only. -/
def foldWorker (cfg : WorkflowConfig) (w : String) (cs : List String) (s : ConvState) : ConvState :=
  match cfg.outputMode with
  | OutputMode.fullHistory => cs.foldl (fun st c => appendProduced st (workerMsg w c)) s
  | OutputMode.lastMessage =>
    let s1 := cs.dropLast.foldl (fun st c => logOnly st (workerMsg w c)) s
    match cs.getLast? with
    | some c => appendProduced s1 (workerMsg w c)
    | none => s1

/-- Modelled from the spec: when control returns to the supervisor and
`add_handoff_back_messages` is enabled, append a synthetic `handoff_response`
control marker recording the transfer. -/
def handoffBack (cfg : WorkflowConfig) (w : String) (s : ConvState) : ConvState :=
  if cfg.addHandoffBack then
    appendProduced s ⟨MsgKind.handoffResponse, w, some cfg.supName, "Transferring back to supervisor"⟩
  else s

/-- Modelled from the spec: the Orchestration Runtime loop.  Each iteration
starts at `AWAITING_DECISION`: it honours a pending cancellation, enforces the
iteration cap, then consumes one opaque supervisor step and — on a validated
handoff — one opaque worker step, folding the worker's output back before
returning control to the supervisor.  Routing to a name absent from the
registry fails the invocation with `unknownAgentRoute` before any handoff
state change.  `fuel` bounds the recursion; `runWorkflow` supplies enough fuel
for the iteration cap to fire first. -/
def stepLoop (cfg : WorkflowConfig) (sup : Nat → SupStep) (work : Nat → WorkStep)
    (cancel : Nat → Bool) : Nat → ConvState → ConvState
  | 0, s => s
  | fuel + 1, s =>
    if s.status = Status.running then
      if cancel s.stepCount then
        { s with status := Status.cancelled }
      else if cfg.iterationLimit < s.stepCount then
        { s with status := Status.failed RuntimeError.iterationLimitExceeded }
      else
        match sup s.stepCount with
        | SupStep.failure => { s with status := Status.failed RuntimeError.agentExecution }
        | SupStep.finalAnswer c =>
          let s1 := appendProduced s ⟨MsgKind.ai, cfg.supName, none, c⟩
          { s1 with status := Status.completed, stepCount := s.stepCount + 1 }
        | SupStep.handoff w reason =>
          if cfg.workers.contains w then
            let s1 := appendProduced s ⟨MsgKind.handoffRequest, cfg.supName, some w, reason⟩
            let s2 := { s1 with activeAgent := w, stepCount := s.stepCount + 1 }
            match work s2.stepCount with
            | WorkStep.failure => { s2 with status := Status.failed RuntimeError.agentExecution }
            | WorkStep.emit cs =>
              let s3 := foldWorker cfg w cs s2
              let s4 := handoffBack cfg w s3
              stepLoop cfg sup work cancel fuel
                { s4 with activeAgent := cfg.supName, stepCount := s2.stepCount + 1 }
          else { s with status := Status.failed (RuntimeError.unknownAgentRoute w) }
    else s

/-- Modelled from the spec: the invocation's initial state — the caller's seed
messages appended as human messages from "user", control at the supervisor. -/
def initState (cfg : WorkflowConfig) (seed : List String) (start : Nat) : ConvState :=
  seed.foldl (fun st c => appendProduced st ⟨MsgKind.human, "user", none, c⟩)
    ⟨[], [], cfg.supName, 0, Status.running, start⟩

/-- Modelled from the spec: run one invocation.  The fuel `iterationLimit + 2`
is enough for the iteration cap to fire before fuel runs out, so the loop
always reaches a terminal status. -/
def runWorkflow (cfg : WorkflowConfig) (sup : Nat → SupStep) (work : Nat → WorkStep)
    (cancel : Nat → Bool) (seed : List String) (start : Nat) : ConvState :=
  stepLoop cfg sup work cancel (cfg.iterationLimit + 2) (initState cfg seed start)

/-- Modelled from the spec: the static workflow graph — the supervisor node
plus one node per worker, with exactly the star edges supervisor→worker and
worker→supervisor. -/
structure WorkflowGraph where
  nodes : List String
  edges : List (String × String)
deriving DecidableEq, Repr

/-- Modelled from the spec: the Workflow Graph Builder. -/
def buildGraph (workers : List String) (supName : String) : WorkflowGraph :=
  ⟨supName :: workers,
    workers.map (fun w => (supName, w)) ++ workers.map (fun w => (w, supName))⟩

/-! ### Basic field lemmas -/

@[simp] theorem appendProduced_messages (s : ConvState) (c : MsgCore) :
    (appendProduced s c).messages = s.messages ++ [⟨c, s.startIndex + s.messages.length⟩] := rfl

@[simp] theorem appendProduced_log (s : ConvState) (c : MsgCore) :
    (appendProduced s c).log = s.log ++ [c] := rfl

@[simp] theorem appendProduced_startIndex (s : ConvState) (c : MsgCore) :
    (appendProduced s c).startIndex = s.startIndex := rfl

@[simp] theorem appendProduced_status (s : ConvState) (c : MsgCore) :
    (appendProduced s c).status = s.status := rfl

@[simp] theorem appendProduced_stepCount (s : ConvState) (c : MsgCore) :
    (appendProduced s c).stepCount = s.stepCount := rfl

@[simp] theorem appendProduced_activeAgent (s : ConvState) (c : MsgCore) :
    (appendProduced s c).activeAgent = s.activeAgent := rfl

@[simp] theorem logOnly_messages (s : ConvState) (c : MsgCore) :
    (logOnly s c).messages = s.messages := rfl

@[simp] theorem logOnly_log (s : ConvState) (c : MsgCore) :
    (logOnly s c).log = s.log ++ [c] := rfl

@[simp] theorem logOnly_startIndex (s : ConvState) (c : MsgCore) :
    (logOnly s c).startIndex = s.startIndex := rfl

@[simp] theorem logOnly_status (s : ConvState) (c : MsgCore) :
    (logOnly s c).status = s.status := rfl

@[simp] theorem logOnly_stepCount (s : ConvState) (c : MsgCore) :
    (logOnly s c).stepCount = s.stepCount := rfl

@[simp] theorem logOnly_activeAgent (s : ConvState) (c : MsgCore) :
    (logOnly s c).activeAgent = s.activeAgent := rfl

/-! ### Fold lemmas: fields untouched by the two append primitives -/

theorem foldl_appendProduced_startIndex (f : String → MsgCore) (cs : List String) :
    ∀ s : ConvState, (cs.foldl (fun st c => appendProduced st (f c)) s).startIndex = s.startIndex := by
  induction cs with
  | nil => intro s; rfl
  | cons c cs ih => intro s; simpa using ih (appendProduced s (f c))

theorem foldl_appendProduced_status (f : String → MsgCore) (cs : List String) :
    ∀ s : ConvState, (cs.foldl (fun st c => appendProduced st (f c)) s).status = s.status := by
  induction cs with
  | nil => intro s; rfl
  | cons c cs ih => intro s; simpa using ih (appendProduced s (f c))

theorem foldl_appendProduced_stepCount (f : String → MsgCore) (cs : List String) :
    ∀ s : ConvState, (cs.foldl (fun st c => appendProduced st (f c)) s).stepCount = s.stepCount := by
  induction cs with
  | nil => intro s; rfl
  | cons c cs ih => intro s; simpa using ih (appendProduced s (f c))

theorem foldl_appendProduced_activeAgent (f : String → MsgCore) (cs : List String) :
    ∀ s : ConvState, (cs.foldl (fun st c => appendProduced st (f c)) s).activeAgent = s.activeAgent := by
  induction cs with
  | nil => intro s; rfl
  | cons c cs ih => intro s; simpa using ih (appendProduced s (f c))

theorem foldl_appendProduced_log (f : String → MsgCore) (cs : List String) :
    ∀ s : ConvState, (cs.foldl (fun st c => appendProduced st (f c)) s).log = s.log ++ cs.map f := by
  induction cs with
  | nil => intro s; simp
  | cons c cs ih => intro s; simp [ih (appendProduced s (f c))]

theorem foldl_logOnly_messages (f : String → MsgCore) (cs : List String) :
    ∀ s : ConvState, (cs.foldl (fun st c => logOnly st (f c)) s).messages = s.messages := by
  induction cs with
  | nil => intro s; rfl
  | cons c cs ih => intro s; simpa using ih (logOnly s (f c))

theorem foldl_logOnly_log (f : String → MsgCore) (cs : List String) :
    ∀ s : ConvState, (cs.foldl (fun st c => logOnly st (f c)) s).log = s.log ++ cs.map f := by
  induction cs with
  | nil => intro s; simp
  | cons c cs ih => intro s; simp [ih (logOnly s (f c))]

theorem foldl_logOnly_startIndex (f : String → MsgCore) (cs : List String) :
    ∀ s : ConvState, (cs.foldl (fun st c => logOnly st (f c)) s).startIndex = s.startIndex := by
  induction cs with
  | nil => intro s; rfl
  | cons c cs ih => intro s; simpa using ih (logOnly s (f c))

theorem foldl_logOnly_status (f : String → MsgCore) (cs : List String) :
    ∀ s : ConvState, (cs.foldl (fun st c => logOnly st (f c)) s).status = s.status := by
  induction cs with
  | nil => intro s; rfl
  | cons c cs ih => intro s; simpa using ih (logOnly s (f c))

theorem foldl_logOnly_stepCount (f : String → MsgCore) (cs : List String) :
    ∀ s : ConvState, (cs.foldl (fun st c => logOnly st (f c)) s).stepCount = s.stepCount := by
  induction cs with
  | nil => intro s; rfl
  | cons c cs ih => intro s; simpa using ih (logOnly s (f c))

theorem foldl_logOnly_activeAgent (f : String → MsgCore) (cs : List String) :
    ∀ s : ConvState, (cs.foldl (fun st c => logOnly st (f c)) s).activeAgent = s.activeAgent := by
  induction cs with
  | nil => intro s; rfl
  | cons c cs ih => intro s; simpa using ih (logOnly s (f c))

/-! ### foldWorker and handoffBack field lemmas -/

theorem foldWorker_startIndex (cfg : WorkflowConfig) (w : String) (cs : List String) (s : ConvState) :
    (foldWorker cfg w cs s).startIndex = s.startIndex := by
  unfold foldWorker
  cases cfg.outputMode with
  | fullHistory => exact foldl_appendProduced_startIndex _ cs s
  | lastMessage =>
    cases h : cs.getLast? with
    | none => simpa [h] using foldl_logOnly_startIndex _ cs.dropLast s
    | some c => simp [h, foldl_logOnly_startIndex]

theorem foldWorker_status (cfg : WorkflowConfig) (w : String) (cs : List String) (s : ConvState) :
    (foldWorker cfg w cs s).status = s.status := by
  unfold foldWorker
  cases cfg.outputMode with
  | fullHistory => exact foldl_appendProduced_status _ cs s
  | lastMessage =>
    cases h : cs.getLast? with
    | none => simpa [h] using foldl_logOnly_status _ cs.dropLast s
    | some c => simp [h, foldl_logOnly_status]

theorem foldWorker_stepCount (cfg : WorkflowConfig) (w : String) (cs : List String) (s : ConvState) :
    (foldWorker cfg w cs s).stepCount = s.stepCount := by
  unfold foldWorker
  cases cfg.outputMode with
  | fullHistory => exact foldl_appendProduced_stepCount _ cs s
  | lastMessage =>
    cases h : cs.getLast? with
    | none => simpa [h] using foldl_logOnly_stepCount _ cs.dropLast s
    | some c => simp [h, foldl_logOnly_stepCount]

theorem foldWorker_activeAgent (cfg : WorkflowConfig) (w : String) (cs : List String) (s : ConvState) :
    (foldWorker cfg w cs s).activeAgent = s.activeAgent := by
  unfold foldWorker
  cases cfg.outputMode with
  | fullHistory => exact foldl_appendProduced_activeAgent _ cs s
  | lastMessage =>
    cases h : cs.getLast? with
    | none => simpa [h] using foldl_logOnly_activeAgent _ cs.dropLast s
    | some c => simp [h, foldl_logOnly_activeAgent]

theorem foldWorker_log (cfg : WorkflowConfig) (w : String) (cs : List String) (s : ConvState) :
    (foldWorker cfg w cs s).log = s.log ++ cs.map (workerMsg w) := by
  unfold foldWorker
  cases cfg.outputMode with
  | fullHistory => exact foldl_appendProduced_log _ cs s
  | lastMessage =>
    rcases List.eq_nil_or_concat cs with h | ⟨L, b, h⟩
    · subst h; simp
    · subst h
      simp [List.concat_eq_append, List.dropLast_concat, List.getLast?_concat,
        foldl_logOnly_log, List.append_assoc]

theorem handoffBack_startIndex (cfg : WorkflowConfig) (w : String) (s : ConvState) :
    (handoffBack cfg w s).startIndex = s.startIndex := by
  unfold handoffBack; split <;> simp

theorem handoffBack_status (cfg : WorkflowConfig) (w : String) (s : ConvState) :
    (handoffBack cfg w s).status = s.status := by
  unfold handoffBack; split <;> simp

theorem handoffBack_stepCount (cfg : WorkflowConfig) (w : String) (s : ConvState) :
    (handoffBack cfg w s).stepCount = s.stepCount := by
  unfold handoffBack; split <;> simp

theorem handoffBack_log (cfg : WorkflowConfig) (w : String) (s : ConvState) :
    (handoffBack cfg w s).log = s.log ++
      (if cfg.addHandoffBack then
        [⟨MsgKind.handoffResponse, w, some cfg.supName, "Transferring back to supervisor"⟩]
       else []) := by
  unfold handoffBack; split <;> simp

/-! ### One-iteration equation lemmas for the loop -/

theorem stepLoop_cancelled (cfg : WorkflowConfig) (sup : Nat → SupStep) (work : Nat → WorkStep)
    (cancel : Nat → Bool) (fuel : Nat) (s : ConvState)
    (hs : s.status = Status.running) (hc : cancel s.stepCount = true) :
    stepLoop cfg sup work cancel (fuel + 1) s = { s with status := Status.cancelled } := by
  rw [stepLoop, if_pos hs, if_pos hc]

theorem stepLoop_limit (cfg : WorkflowConfig) (sup : Nat → SupStep) (work : Nat → WorkStep)
    (cancel : Nat → Bool) (fuel : Nat) (s : ConvState)
    (hs : s.status = Status.running) (hc : cancel s.stepCount = false)
    (hl : cfg.iterationLimit < s.stepCount) :
    stepLoop cfg sup work cancel (fuel + 1) s =
      { s with status := Status.failed RuntimeError.iterationLimitExceeded } := by
  rw [stepLoop, if_pos hs, if_neg (by simp [hc]), if_pos hl]

theorem stepLoop_supFail (cfg : WorkflowConfig) (sup : Nat → SupStep) (work : Nat → WorkStep)
    (cancel : Nat → Bool) (fuel : Nat) (s : ConvState)
    (hs : s.status = Status.running) (hc : cancel s.stepCount = false)
    (hl : ¬ cfg.iterationLimit < s.stepCount) (hd : sup s.stepCount = SupStep.failure) :
    stepLoop cfg sup work cancel (fuel + 1) s =
      { s with status := Status.failed RuntimeError.agentExecution } := by
  rw [stepLoop, if_pos hs, if_neg (by simp [hc]), if_neg hl]
  simp only [hd]

theorem stepLoop_final (cfg : WorkflowConfig) (sup : Nat → SupStep) (work : Nat → WorkStep)
    (cancel : Nat → Bool) (fuel : Nat) (s : ConvState) (c : String)
    (hs : s.status = Status.running) (hc : cancel s.stepCount = false)
    (hl : ¬ cfg.iterationLimit < s.stepCount) (hd : sup s.stepCount = SupStep.finalAnswer c) :
    stepLoop cfg sup work cancel (fuel + 1) s =
      { appendProduced s ⟨MsgKind.ai, cfg.supName, none, c⟩ with
          status := Status.completed, stepCount := s.stepCount + 1 } := by
  rw [stepLoop, if_pos hs, if_neg (by simp [hc]), if_neg hl]
  simp only [hd]

theorem stepLoop_unknownRoute (cfg : WorkflowConfig) (sup : Nat → SupStep) (work : Nat → WorkStep)
    (cancel : Nat → Bool) (fuel : Nat) (s : ConvState) (w reason : String)
    (hs : s.status = Status.running) (hc : cancel s.stepCount = false)
    (hl : ¬ cfg.iterationLimit < s.stepCount) (hd : sup s.stepCount = SupStep.handoff w reason)
    (hw : cfg.workers.contains w = false) :
    stepLoop cfg sup work cancel (fuel + 1) s =
      { s with status := Status.failed (RuntimeError.unknownAgentRoute w) } := by
  rw [stepLoop, if_pos hs, if_neg (by simp [hc]), if_neg hl]
  simp only [hd, hw]
  rfl

theorem stepLoop_workFail (cfg : WorkflowConfig) (sup : Nat → SupStep) (work : Nat → WorkStep)
    (cancel : Nat → Bool) (fuel : Nat) (s : ConvState) (w reason : String)
    (hs : s.status = Status.running) (hc : cancel s.stepCount = false)
    (hl : ¬ cfg.iterationLimit < s.stepCount) (hd : sup s.stepCount = SupStep.handoff w reason)
    (hw : cfg.workers.contains w = true) (hwk : work (s.stepCount + 1) = WorkStep.failure) :
    stepLoop cfg sup work cancel (fuel + 1) s =
      { appendProduced s ⟨MsgKind.handoffRequest, cfg.supName, some w, reason⟩ with
          activeAgent := w, stepCount := s.stepCount + 1,
          status := Status.failed RuntimeError.agentExecution } := by
  rw [stepLoop, if_pos hs, if_neg (by simp [hc]), if_neg hl]
  simp only [hd, hw, if_true, appendProduced_stepCount, hwk]

theorem stepLoop_handoff (cfg : WorkflowConfig) (sup : Nat → SupStep) (work : Nat → WorkStep)
    (cancel : Nat → Bool) (fuel : Nat) (s : ConvState) (w reason : String) (cs : List String)
    (hs : s.status = Status.running) (hc : cancel s.stepCount = false)
    (hl : ¬ cfg.iterationLimit < s.stepCount) (hd : sup s.stepCount = SupStep.handoff w reason)
    (hw : cfg.workers.contains w = true) (hwk : work (s.stepCount + 1) = WorkStep.emit cs) :
    stepLoop cfg sup work cancel (fuel + 1) s =
      stepLoop cfg sup work cancel fuel
        { handoffBack cfg w (foldWorker cfg w cs
            { appendProduced s ⟨MsgKind.handoffRequest, cfg.supName, some w, reason⟩ with
                activeAgent := w, stepCount := s.stepCount + 1 }) with
          activeAgent := cfg.supName, stepCount := s.stepCount + 2 } := by
  rw [stepLoop, if_pos hs, if_neg (by simp [hc]), if_neg hl]
  simp only [hd, hw, if_true, appendProduced_stepCount, hwk]

/-! ### Terminal stability and termination of the loop -/

/-- A terminal state is stable: the loop never resumes a finished invocation. -/
theorem stepLoop_terminal (cfg : WorkflowConfig) (sup : Nat → SupStep) (work : Nat → WorkStep)
    (cancel : Nat → Bool) (s : ConvState) (h : s.status ≠ Status.running) :
    ∀ fuel, stepLoop cfg sup work cancel fuel s = s := by
  intro fuel
  cases fuel with
  | zero => rfl
  | succ fuel => simp [stepLoop, h]

/-- With fuel at least `iterationLimit + 2 - stepCount` (and at least one unit),
the loop always reaches a terminal status: each iteration either stops or
advances `stepCount`, and the iteration cap fires before fuel runs out. -/
theorem stepLoop_terminates (cfg : WorkflowConfig) (sup : Nat → SupStep) (work : Nat → WorkStep)
    (cancel : Nat → Bool) :
    ∀ fuel (s : ConvState), 1 ≤ fuel → cfg.iterationLimit + 2 ≤ fuel + s.stepCount →
      (stepLoop cfg sup work cancel fuel s).status ≠ Status.running := by
  intro fuel
  induction fuel with
  | zero => intro s h1 _; omega
  | succ fuel ih =>
    intro s _ h2
    by_cases hs : s.status = Status.running
    · by_cases hc : cancel s.stepCount
      · rw [stepLoop_cancelled cfg sup work cancel fuel s hs hc]; simp
      · have hc' : cancel s.stepCount = false := by simpa using hc
        by_cases hl : cfg.iterationLimit < s.stepCount
        · rw [stepLoop_limit cfg sup work cancel fuel s hs hc' hl]; simp
        · cases hd : sup s.stepCount with
          | failure => rw [stepLoop_supFail cfg sup work cancel fuel s hs hc' hl hd]; simp
          | finalAnswer c => rw [stepLoop_final cfg sup work cancel fuel s c hs hc' hl hd]; simp
          | handoff w reason =>
            by_cases hw : cfg.workers.contains w
            · cases hwk : work (s.stepCount + 1) with
              | failure =>
                rw [stepLoop_workFail cfg sup work cancel fuel s w reason hs hc' hl hd hw hwk]
                simp
              | emit cs =>
                rw [stepLoop_handoff cfg sup work cancel fuel s w reason cs hs hc' hl hd hw hwk]
                apply ih
                · omega
                · show cfg.iterationLimit + 2 ≤ fuel + (s.stepCount + 2)
                  omega
            · have hw' : cfg.workers.contains w = false := by simpa using hw
              rw [stepLoop_unknownRoute cfg sup work cancel fuel s w reason hs hc' hl hd hw']
              simp
    · rw [stepLoop_terminal cfg sup work cancel s hs]
      exact hs

/-! ### A master preservation principle for transcript invariants -/

/-- Any predicate that depends only on the transcript, the append log and the
starting index, is preserved by supervisor-sender appends, and is preserved by
a validated handoff block, is an invariant of the runtime loop. -/
theorem stepLoop_preserves (cfg : WorkflowConfig) (sup : Nat → SupStep) (work : Nat → WorkStep)
    (cancel : Nat → Bool) (P : ConvState → Prop)
    (hfields : ∀ s t : ConvState, s.messages = t.messages → s.log = t.log →
      s.startIndex = t.startIndex → P s → P t)
    (hsupAppend : ∀ (s : ConvState) (k : MsgKind) (r : Option String) (c : String),
      P s → P (appendProduced s ⟨k, cfg.supName, r, c⟩))
    (hblock : ∀ (s : ConvState) (w reason : String) (cs : List String) (sc1 sc2 : Nat) (aa : String),
      cfg.workers.contains w = true → P s →
      P { handoffBack cfg w (foldWorker cfg w cs
            { appendProduced s ⟨MsgKind.handoffRequest, cfg.supName, some w, reason⟩ with
                activeAgent := w, stepCount := sc1 }) with
          activeAgent := aa, stepCount := sc2 }) :
    ∀ fuel (s : ConvState), P s → P (stepLoop cfg sup work cancel fuel s) := by
  intro fuel
  induction fuel with
  | zero => intro s hP; exact hP
  | succ fuel ih =>
    intro s hP
    by_cases hs : s.status = Status.running
    · by_cases hc : cancel s.stepCount
      · rw [stepLoop_cancelled cfg sup work cancel fuel s hs hc]
        exact hfields s _ rfl rfl rfl hP
      · have hc' : cancel s.stepCount = false := by simpa using hc
        by_cases hl : cfg.iterationLimit < s.stepCount
        · rw [stepLoop_limit cfg sup work cancel fuel s hs hc' hl]
          exact hfields s _ rfl rfl rfl hP
        · cases hd : sup s.stepCount with
          | failure =>
            rw [stepLoop_supFail cfg sup work cancel fuel s hs hc' hl hd]
            exact hfields s _ rfl rfl rfl hP
          | finalAnswer c =>
            rw [stepLoop_final cfg sup work cancel fuel s c hs hc' hl hd]
            exact hfields (appendProduced s ⟨MsgKind.ai, cfg.supName, none, c⟩) _ rfl rfl rfl
              (hsupAppend s MsgKind.ai none c hP)
          | handoff w reason =>
            by_cases hw : cfg.workers.contains w
            · cases hwk : work (s.stepCount + 1) with
              | failure =>
                rw [stepLoop_workFail cfg sup work cancel fuel s w reason hs hc' hl hd hw hwk]
                exact hfields
                  (appendProduced s ⟨MsgKind.handoffRequest, cfg.supName, some w, reason⟩) _
                  rfl rfl rfl (hsupAppend s MsgKind.handoffRequest (some w) reason hP)
              | emit cs =>
                rw [stepLoop_handoff cfg sup work cancel fuel s w reason cs hs hc' hl hd hw hwk]
                exact ih _ (hblock s w reason cs (s.stepCount + 1) (s.stepCount + 2) cfg.supName hw hP)
            · have hw' : cfg.workers.contains w = false := by simpa using hw
              rw [stepLoop_unknownRoute cfg sup work cancel fuel s w reason hs hc' hl hd hw']
              exact hfields s _ rfl rfl rfl hP
    · rw [stepLoop_terminal cfg sup work cancel s hs]
      exact hP

/-! ### C1: contiguous sequence indices and append-only growth -/

/-- The transcript's `sequence_index` values are exactly the contiguous range
starting at the invocation's starting index. -/
def Indexed (s : ConvState) : Prop :=
  s.messages.map Message.seqIndex = List.range' s.startIndex s.messages.length

theorem indexed_congr (s t : ConvState) (hm : s.messages = t.messages)
    (hi : s.startIndex = t.startIndex) (h : Indexed s) : Indexed t := by
  unfold Indexed at *
  rw [← hm, ← hi]
  exact h

theorem indexed_appendProduced (s : ConvState) (c : MsgCore) (h : Indexed s) :
    Indexed (appendProduced s c) := by
  unfold Indexed at *
  simp [h, List.range'_1_concat]

theorem indexed_foldl_appendProduced (f : String → MsgCore) (cs : List String) :
    ∀ s : ConvState, Indexed s → Indexed (cs.foldl (fun st c => appendProduced st (f c)) s) := by
  induction cs with
  | nil => intro s h; exact h
  | cons c cs ih => intro s h; exact ih _ (indexed_appendProduced s (f c) h)

theorem indexed_foldWorker (cfg : WorkflowConfig) (w : String) (cs : List String) (s : ConvState)
    (h : Indexed s) : Indexed (foldWorker cfg w cs s) := by
  unfold foldWorker
  cases cfg.outputMode with
  | fullHistory => exact indexed_foldl_appendProduced _ cs s h
  | lastMessage =>
    have h1 : Indexed (cs.dropLast.foldl (fun st c => logOnly st (workerMsg w c)) s) :=
      indexed_congr s _ (foldl_logOnly_messages _ _ s).symm
        (foldl_logOnly_startIndex _ _ s).symm h
    cases hl : cs.getLast? with
    | some c => exact indexed_appendProduced _ _ h1
    | none => exact h1

theorem indexed_handoffBack (cfg : WorkflowConfig) (w : String) (s : ConvState)
    (h : Indexed s) : Indexed (handoffBack cfg w s) := by
  unfold handoffBack
  split
  · exact indexed_appendProduced s _ h
  · exact h

theorem indexed_stepLoop (cfg : WorkflowConfig) (sup : Nat → SupStep) (work : Nat → WorkStep)
    (cancel : Nat → Bool) :
    ∀ fuel (s : ConvState), Indexed s → Indexed (stepLoop cfg sup work cancel fuel s) :=
  stepLoop_preserves cfg sup work cancel Indexed
    (fun s t hm _ hi h => indexed_congr s t hm hi h)
    (fun s _ _ _ h => indexed_appendProduced s _ h)
    (fun s w reason cs sc1 _ _ _ h => by
      refine indexed_congr
        (handoffBack cfg w (foldWorker cfg w cs
          { appendProduced s ⟨MsgKind.handoffRequest, cfg.supName, some w, reason⟩ with
              activeAgent := w, stepCount := sc1 })) _ rfl rfl ?_
      refine indexed_handoffBack cfg w _ (indexed_foldWorker cfg w cs _ ?_)
      exact indexed_congr (appendProduced s ⟨MsgKind.handoffRequest, cfg.supName, some w, reason⟩)
        _ rfl rfl (indexed_appendProduced s _ h))

theorem indexed_initState (cfg : WorkflowConfig) (seed : List String) (start : Nat) :
    Indexed (initState cfg seed start) := by
  unfold initState
  exact indexed_foldl_appendProduced (fun c => ⟨MsgKind.human, "user", none, c⟩) seed _
    (by unfold Indexed; simp)

/-- The runtime only appends: messages already in the state survive, in place,
any number of further loop iterations. -/
theorem foldl_appendProduced_messages_mono (f : String → MsgCore) (cs : List String) :
    ∀ s : ConvState, ∃ t, (cs.foldl (fun st c => appendProduced st (f c)) s).messages =
      s.messages ++ t := by
  induction cs with
  | nil => intro s; exact ⟨[], by simp⟩
  | cons c cs ih =>
    intro s
    obtain ⟨t, ht⟩ := ih (appendProduced s (f c))
    exact ⟨⟨f c, s.startIndex + s.messages.length⟩ :: t, by simpa using ht⟩

theorem foldWorker_messages_mono (cfg : WorkflowConfig) (w : String) (cs : List String)
    (s : ConvState) : ∃ t, (foldWorker cfg w cs s).messages = s.messages ++ t := by
  unfold foldWorker
  cases cfg.outputMode with
  | fullHistory => exact foldl_appendProduced_messages_mono _ cs s
  | lastMessage =>
    cases hl : cs.getLast? with
    | some c =>
      refine ⟨[⟨workerMsg w c, s.startIndex + s.messages.length⟩], ?_⟩
      simp [foldl_logOnly_messages, foldl_logOnly_startIndex]
    | none => exact ⟨[], by simp [foldl_logOnly_messages]⟩

theorem handoffBack_messages_mono (cfg : WorkflowConfig) (w : String) (s : ConvState) :
    ∃ t, (handoffBack cfg w s).messages = s.messages ++ t := by
  unfold handoffBack
  split
  · exact ⟨_, rfl⟩
  · exact ⟨[], by simp⟩

theorem stepLoop_messages_mono (cfg : WorkflowConfig) (sup : Nat → SupStep) (work : Nat → WorkStep)
    (cancel : Nat → Bool) (fuel : Nat) (s : ConvState) :
    ∃ t, (stepLoop cfg sup work cancel fuel s).messages = s.messages ++ t := by
  refine stepLoop_preserves cfg sup work cancel
    (fun u => ∃ t, u.messages = s.messages ++ t) ?_ ?_ ?_ fuel s ⟨[], by simp⟩
  · rintro u v hm _ _ ⟨t, ht⟩
    exact ⟨t, by rw [← hm]; exact ht⟩
  · rintro u k r c ⟨t, ht⟩
    exact ⟨t ++ [⟨⟨k, cfg.supName, r, c⟩, u.startIndex + u.messages.length⟩],
      by simp [ht, List.append_assoc]⟩
  · rintro u w reason cs sc1 sc2 aa _ ⟨t, ht⟩
    obtain ⟨t1, ht1⟩ := foldWorker_messages_mono cfg w cs
      { appendProduced u ⟨MsgKind.handoffRequest, cfg.supName, some w, reason⟩ with
          activeAgent := w, stepCount := sc1 }
    obtain ⟨t2, ht2⟩ := handoffBack_messages_mono cfg w (foldWorker cfg w cs
      { appendProduced u ⟨MsgKind.handoffRequest, cfg.supName, some w, reason⟩ with
          activeAgent := w, stepCount := sc1 })
    refine ⟨t ++ [⟨⟨MsgKind.handoffRequest, cfg.supName, some w, reason⟩,
      u.startIndex + u.messages.length⟩] ++ t1 ++ t2, ?_⟩
    show (handoffBack cfg w (foldWorker cfg w cs _)).messages = _
    rw [ht2, ht1]
    show (appendProduced u ⟨MsgKind.handoffRequest, cfg.supName, some w, reason⟩).messages
      ++ t1 ++ t2 = _
    simp [ht, List.append_assoc]

theorem stepLoop_startIndex (cfg : WorkflowConfig) (sup : Nat → SupStep) (work : Nat → WorkStep)
    (cancel : Nat → Bool) (fuel : Nat) (s : ConvState) :
    (stepLoop cfg sup work cancel fuel s).startIndex = s.startIndex := by
  refine stepLoop_preserves cfg sup work cancel (fun u => u.startIndex = s.startIndex)
    ?_ ?_ ?_ fuel s rfl
  · intro u v _ _ hi h; rw [← hi]; exact h
  · intro u _ _ _ h; simpa using h
  · intro u w reason cs sc1 sc2 aa _ h
    show (handoffBack cfg w (foldWorker cfg w cs _)).startIndex = _
    rw [handoffBack_startIndex, foldWorker_startIndex]
    simpa using h

theorem initState_startIndex (cfg : WorkflowConfig) (seed : List String) (start : Nat) :
    (initState cfg seed start).startIndex = start := by
  unfold initState
  exact foldl_appendProduced_startIndex _ seed _

/-! ### C2: star topology — graph shape and transcript span structure -/

/-- Adjacent-message star condition: a message attributed to a registered
worker that opens a new span (its sender differs from the previous message's
sender) must be directly preceded by a supervisor message.  `Chain'` of this
relation over a transcript says no two consecutive spans are attributed to
workers without an intervening supervisor turn. -/
def linkRel (cfg : WorkflowConfig) (a b : Message) : Prop :=
  b.sender ∈ cfg.workers → b.sender ≠ a.sender → a.sender = cfg.supName

/-- The transcript satisfies the star-topology span invariant. -/
def StarChain (cfg : WorkflowConfig) (msgs : List Message) : Prop :=
  List.Chain' (linkRel cfg) msgs

theorem starChain_append (cfg : WorkflowConfig) (msgs : List Message) (m : Message)
    (h : StarChain cfg msgs) (hm : ∀ a, msgs.getLast? = some a → linkRel cfg a m) :
    StarChain cfg (msgs ++ [m]) := by
  rw [StarChain, List.chain'_append]
  refine ⟨h, List.chain'_singleton m, ?_⟩
  intro x hx y hy
  simp only [List.head?_cons, Option.mem_def, Option.some.injEq] at hy
  subst hy
  exact hm x hx

theorem starChain_append_sup (cfg : WorkflowConfig) (hsup : cfg.supName ∉ cfg.workers)
    (msgs : List Message) (m : Message) (hm : m.sender = cfg.supName)
    (h : StarChain cfg msgs) : StarChain cfg (msgs ++ [m]) := by
  refine starChain_append cfg msgs m h ?_
  intro a _ hmem _
  exact absurd (hm ▸ hmem) hsup

theorem starChain_append_worker (cfg : WorkflowConfig) (msgs : List Message) (m : Message)
    (w : String) (hm : m.sender = w)
    (hlast : ∀ a, msgs.getLast? = some a → a.sender = cfg.supName ∨ a.sender = w)
    (h : StarChain cfg msgs) : StarChain cfg (msgs ++ [m]) := by
  refine starChain_append cfg msgs m h ?_
  intro a ha _ hne
  rcases hlast a ha with hsup | haw
  · exact hsup
  · exact absurd (hm.trans haw.symm) hne

/-- Invariant while a worker `w` holds control: the transcript satisfies the
star condition and its last message is from the supervisor or from `w`. -/
def WInv (cfg : WorkflowConfig) (w : String) (s : ConvState) : Prop :=
  StarChain cfg s.messages ∧
    ∀ a, s.messages.getLast? = some a → a.sender = cfg.supName ∨ a.sender = w

theorem winv_appendProduced (cfg : WorkflowConfig) (w : String) (s : ConvState) (c : MsgCore)
    (hc : c.sender = w) (h : WInv cfg w s) : WInv cfg w (appendProduced s c) := by
  constructor
  · exact starChain_append_worker cfg s.messages _ w hc h.2 h.1
  · intro a ha
    rw [appendProduced_messages, List.getLast?_concat] at ha
    cases ha
    exact Or.inr hc

theorem winv_foldl (cfg : WorkflowConfig) (w : String) (cs : List String) :
    ∀ s : ConvState, WInv cfg w s →
      WInv cfg w (cs.foldl (fun st c => appendProduced st (workerMsg w c)) s) := by
  induction cs with
  | nil => intro s h; exact h
  | cons c cs ih => intro s h; exact ih _ (winv_appendProduced cfg w s _ rfl h)

theorem winv_congr (cfg : WorkflowConfig) (w : String) (s t : ConvState)
    (hm : s.messages = t.messages) (h : WInv cfg w s) : WInv cfg w t := by
  unfold WInv at *
  rw [← hm]
  exact h

theorem winv_foldWorker (cfg : WorkflowConfig) (w : String) (cs : List String) (s : ConvState)
    (h : WInv cfg w s) : WInv cfg w (foldWorker cfg w cs s) := by
  unfold foldWorker
  cases cfg.outputMode with
  | fullHistory => exact winv_foldl cfg w cs s h
  | lastMessage =>
    have h1 : WInv cfg w (cs.dropLast.foldl (fun st c => logOnly st (workerMsg w c)) s) :=
      winv_congr cfg w s _ (foldl_logOnly_messages _ _ s).symm h
    cases hl : cs.getLast? with
    | some c => exact winv_appendProduced cfg w _ _ rfl h1
    | none => exact h1

theorem winv_handoffBack (cfg : WorkflowConfig) (w : String) (s : ConvState)
    (h : WInv cfg w s) : WInv cfg w (handoffBack cfg w s) := by
  unfold handoffBack
  split
  · exact winv_appendProduced cfg w s _ rfl h
  · exact h

theorem starChain_stepLoop (cfg : WorkflowConfig) (sup : Nat → SupStep) (work : Nat → WorkStep)
    (cancel : Nat → Bool) (hsup : cfg.supName ∉ cfg.workers) :
    ∀ fuel (s : ConvState), StarChain cfg s.messages →
      StarChain cfg (stepLoop cfg sup work cancel fuel s).messages := by
  refine stepLoop_preserves cfg sup work cancel (fun u => StarChain cfg u.messages) ?_ ?_ ?_
  · intro u v hm _ _ h
    rw [← hm]
    exact h
  · intro u k r c h
    exact starChain_append_sup cfg hsup u.messages _ rfl h
  · intro u w reason cs sc1 sc2 aa _ h
    have h0 : StarChain cfg (appendProduced u
        ⟨MsgKind.handoffRequest, cfg.supName, some w, reason⟩).messages :=
      starChain_append_sup cfg hsup u.messages _ rfl h
    have h1 : WInv cfg w { appendProduced u
        ⟨MsgKind.handoffRequest, cfg.supName, some w, reason⟩ with
          activeAgent := w, stepCount := sc1 } := by
      constructor
      · exact h0
      · intro a ha
        rw [show ({ appendProduced u
            ⟨MsgKind.handoffRequest, cfg.supName, some w, reason⟩ with
              activeAgent := w, stepCount := sc1 } : ConvState).messages =
            u.messages ++ [⟨⟨MsgKind.handoffRequest, cfg.supName, some w, reason⟩,
              u.startIndex + u.messages.length⟩] from rfl, List.getLast?_concat] at ha
        cases ha
        exact Or.inl rfl
    have h2 := winv_handoffBack cfg w _ (winv_foldWorker cfg w cs _ h1)
    exact h2.1

/-- Invariant while the seed is appended: every message so far is from
"user". -/
def UInv (cfg : WorkflowConfig) (s : ConvState) : Prop :=
  StarChain cfg s.messages ∧ ∀ a, s.messages.getLast? = some a → a.sender = "user"

theorem uinv_foldl (cfg : WorkflowConfig) (cs : List String) :
    ∀ s : ConvState, UInv cfg s →
      UInv cfg (cs.foldl (fun st c => appendProduced st ⟨MsgKind.human, "user", none, c⟩) s) := by
  induction cs with
  | nil => intro s h; exact h
  | cons c cs ih =>
    intro s h
    refine ih _ ⟨?_, ?_⟩
    · refine starChain_append cfg s.messages _ h.1 ?_
      intro a ha _ hne
      exact absurd (h.2 a ha).symm hne
    · intro a ha
      rw [appendProduced_messages, List.getLast?_concat] at ha
      cases ha
      rfl

theorem starChain_initState (cfg : WorkflowConfig) (seed : List String) (start : Nat) :
    StarChain cfg (initState cfg seed start).messages := by
  unfold initState
  exact (uinv_foldl cfg seed ⟨[], [], cfg.supName, 0, Status.running, start⟩
    ⟨List.chain'_nil, by intro a ha; simp at ha⟩).1

/-! ### C3: in full-history mode the transcript is exactly the append log -/

/-- The visible transcript coincides with the append log. -/
def FullSync (s : ConvState) : Prop :=
  s.messages.map Message.core = s.log

theorem fullSync_appendProduced (s : ConvState) (c : MsgCore) (h : FullSync s) :
    FullSync (appendProduced s c) := by
  unfold FullSync at *
  simp [h]

theorem fullSync_foldl (f : String → MsgCore) (cs : List String) :
    ∀ s : ConvState, FullSync s → FullSync (cs.foldl (fun st c => appendProduced st (f c)) s) := by
  induction cs with
  | nil => intro s h; exact h
  | cons c cs ih => intro s h; exact ih _ (fullSync_appendProduced s (f c) h)

theorem fullSync_congr (s t : ConvState) (hm : s.messages = t.messages) (hl : s.log = t.log)
    (h : FullSync s) : FullSync t := by
  unfold FullSync at *
  rw [← hm, ← hl]
  exact h

theorem fullSync_foldWorker (cfg : WorkflowConfig) (hmode : cfg.outputMode = OutputMode.fullHistory)
    (w : String) (cs : List String) (s : ConvState) (h : FullSync s) :
    FullSync (foldWorker cfg w cs s) := by
  unfold foldWorker
  rw [hmode]
  exact fullSync_foldl _ cs s h

theorem fullSync_handoffBack (cfg : WorkflowConfig) (w : String) (s : ConvState)
    (h : FullSync s) : FullSync (handoffBack cfg w s) := by
  unfold handoffBack
  split
  · exact fullSync_appendProduced s _ h
  · exact h

theorem fullSync_stepLoop (cfg : WorkflowConfig) (sup : Nat → SupStep) (work : Nat → WorkStep)
    (cancel : Nat → Bool) (hmode : cfg.outputMode = OutputMode.fullHistory) :
    ∀ fuel (s : ConvState), FullSync s → FullSync (stepLoop cfg sup work cancel fuel s) := by
  refine stepLoop_preserves cfg sup work cancel FullSync ?_ ?_ ?_
  · intro u v hm hl _ h
    exact fullSync_congr u v hm hl h
  · intro u _ _ _ h
    exact fullSync_appendProduced u _ h
  · intro u w reason cs sc1 sc2 aa _ h
    refine fullSync_congr (handoffBack cfg w (foldWorker cfg w cs
      { appendProduced u ⟨MsgKind.handoffRequest, cfg.supName, some w, reason⟩ with
          activeAgent := w, stepCount := sc1 })) _ rfl rfl ?_
    refine fullSync_handoffBack cfg w _ (fullSync_foldWorker cfg hmode w cs _ ?_)
    exact fullSync_congr (appendProduced u ⟨MsgKind.handoffRequest, cfg.supName, some w, reason⟩)
      _ rfl rfl (fullSync_appendProduced u _ h)

theorem fullSync_initState (cfg : WorkflowConfig) (seed : List String) (start : Nat) :
    FullSync (initState cfg seed start) := by
  unfold initState
  exact fullSync_foldl (fun c => ⟨MsgKind.human, "user", none, c⟩) seed
    ⟨[], [], cfg.supName, 0, Status.running, start⟩ (by unfold FullSync; simp)

/-! ### C7: the condensed transcript is a subsequence of the append log,
and the append log does not depend on the output mode -/

/-- The visible transcript is an order-preserving subsequence of the append
log. -/
def CondensedSub (s : ConvState) : Prop :=
  List.Sublist (s.messages.map Message.core) s.log

theorem condensedSub_appendProduced (s : ConvState) (c : MsgCore) (h : CondensedSub s) :
    CondensedSub (appendProduced s c) := by
  unfold CondensedSub at *
  simpa using List.Sublist.append h (List.Sublist.refl [c])

theorem condensedSub_logOnly (s : ConvState) (c : MsgCore) (h : CondensedSub s) :
    CondensedSub (logOnly s c) := by
  unfold CondensedSub at *
  simp only [logOnly_messages, logOnly_log]
  exact h.trans (List.sublist_append_left s.log [c])

theorem condensedSub_foldl_append (f : String → MsgCore) (cs : List String) :
    ∀ s : ConvState, CondensedSub s →
      CondensedSub (cs.foldl (fun st c => appendProduced st (f c)) s) := by
  induction cs with
  | nil => intro s h; exact h
  | cons c cs ih => intro s h; exact ih _ (condensedSub_appendProduced s (f c) h)

theorem condensedSub_foldl_log (f : String → MsgCore) (cs : List String) :
    ∀ s : ConvState, CondensedSub s →
      CondensedSub (cs.foldl (fun st c => logOnly st (f c)) s) := by
  induction cs with
  | nil => intro s h; exact h
  | cons c cs ih => intro s h; exact ih _ (condensedSub_logOnly s (f c) h)

theorem condensedSub_congr (s t : ConvState) (hm : s.messages = t.messages) (hl : s.log = t.log)
    (h : CondensedSub s) : CondensedSub t := by
  unfold CondensedSub at *
  rw [← hm, ← hl]
  exact h

theorem condensedSub_foldWorker (cfg : WorkflowConfig) (w : String) (cs : List String)
    (s : ConvState) (h : CondensedSub s) : CondensedSub (foldWorker cfg w cs s) := by
  unfold foldWorker
  cases cfg.outputMode with
  | fullHistory => exact condensedSub_foldl_append _ cs s h
  | lastMessage =>
    have h1 := condensedSub_foldl_log (workerMsg w) cs.dropLast s h
    cases hl : cs.getLast? with
    | some c => exact condensedSub_appendProduced _ _ h1
    | none => exact h1

theorem condensedSub_handoffBack (cfg : WorkflowConfig) (w : String) (s : ConvState)
    (h : CondensedSub s) : CondensedSub (handoffBack cfg w s) := by
  unfold handoffBack
  split
  · exact condensedSub_appendProduced s _ h
  · exact h

theorem condensedSub_stepLoop (cfg : WorkflowConfig) (sup : Nat → SupStep) (work : Nat → WorkStep)
    (cancel : Nat → Bool) :
    ∀ fuel (s : ConvState), CondensedSub s →
      CondensedSub (stepLoop cfg sup work cancel fuel s) := by
  refine stepLoop_preserves cfg sup work cancel CondensedSub ?_ ?_ ?_
  · intro u v hm hl _ h
    exact condensedSub_congr u v hm hl h
  · intro u _ _ _ h
    exact condensedSub_appendProduced u _ h
  · intro u w reason cs sc1 sc2 aa _ h
    refine condensedSub_congr (handoffBack cfg w (foldWorker cfg w cs
      { appendProduced u ⟨MsgKind.handoffRequest, cfg.supName, some w, reason⟩ with
          activeAgent := w, stepCount := sc1 })) _ rfl rfl ?_
    refine condensedSub_handoffBack cfg w _ (condensedSub_foldWorker cfg w cs _ ?_)
    exact condensedSub_congr (appendProduced u ⟨MsgKind.handoffRequest, cfg.supName, some w, reason⟩)
      _ rfl rfl (condensedSub_appendProduced u _ h)

theorem condensedSub_initState (cfg : WorkflowConfig) (seed : List String) (start : Nat) :
    CondensedSub (initState cfg seed start) := by
  unfold initState
  exact condensedSub_foldl_append (fun c => ⟨MsgKind.human, "user", none, c⟩) seed
    ⟨[], [], cfg.supName, 0, Status.running, start⟩ (by unfold CondensedSub; simp)

/-- Two invocation states agreeing on everything but the visible transcript.
The output mode only affects which produced payloads are visible; the append
log, controls and counters evolve identically. -/
def SameRun (s t : ConvState) : Prop :=
  s.log = t.log ∧ s.stepCount = t.stepCount ∧ s.status = t.status ∧
    s.activeAgent = t.activeAgent ∧ s.startIndex = t.startIndex

theorem sameRun_stepLoop (cfg1 cfg2 : WorkflowConfig)
    (hW : cfg1.workers = cfg2.workers) (hS : cfg1.supName = cfg2.supName)
    (hH : cfg1.addHandoffBack = cfg2.addHandoffBack)
    (hI : cfg1.iterationLimit = cfg2.iterationLimit)
    (sup : Nat → SupStep) (work : Nat → WorkStep) (cancel : Nat → Bool) :
    ∀ fuel (s t : ConvState), SameRun s t →
      SameRun (stepLoop cfg1 sup work cancel fuel s) (stepLoop cfg2 sup work cancel fuel t) := by
  intro fuel
  induction fuel with
  | zero => intro s t h; exact h
  | succ fuel ih =>
    intro s t h
    obtain ⟨hlog, hsc, hst, haa, hsi⟩ := h
    by_cases hs : s.status = Status.running
    · have ht : t.status = Status.running := by rw [← hst]; exact hs
      by_cases hc : cancel s.stepCount
      · have hc2 : cancel t.stepCount = true := by rw [← hsc]; exact hc
        rw [stepLoop_cancelled cfg1 sup work cancel fuel s hs hc,
          stepLoop_cancelled cfg2 sup work cancel fuel t ht hc2]
        exact ⟨hlog, hsc, rfl, haa, hsi⟩
      · have hc' : cancel s.stepCount = false := by simpa using hc
        have hc2 : cancel t.stepCount = false := by rw [← hsc]; exact hc'
        by_cases hl : cfg1.iterationLimit < s.stepCount
        · have hl2 : cfg2.iterationLimit < t.stepCount := by rw [← hI, ← hsc]; exact hl
          rw [stepLoop_limit cfg1 sup work cancel fuel s hs hc' hl,
            stepLoop_limit cfg2 sup work cancel fuel t ht hc2 hl2]
          exact ⟨hlog, hsc, rfl, haa, hsi⟩
        · have hl2 : ¬ cfg2.iterationLimit < t.stepCount := by rw [← hI, ← hsc]; exact hl
          cases hd : sup s.stepCount with
          | failure =>
            have hd2 : sup t.stepCount = SupStep.failure := by rw [← hsc]; exact hd
            rw [stepLoop_supFail cfg1 sup work cancel fuel s hs hc' hl hd,
              stepLoop_supFail cfg2 sup work cancel fuel t ht hc2 hl2 hd2]
            exact ⟨hlog, hsc, rfl, haa, hsi⟩
          | finalAnswer c =>
            have hd2 : sup t.stepCount = SupStep.finalAnswer c := by rw [← hsc]; exact hd
            rw [stepLoop_final cfg1 sup work cancel fuel s c hs hc' hl hd,
              stepLoop_final cfg2 sup work cancel fuel t c ht hc2 hl2 hd2]
            exact ⟨by simp [hlog, hS], by simp [hsc], rfl, by simp [haa], by simp [hsi]⟩
          | handoff w reason =>
            have hd2 : sup t.stepCount = SupStep.handoff w reason := by rw [← hsc]; exact hd
            by_cases hw : cfg1.workers.contains w
            · have hw2 : cfg2.workers.contains w = true := by rw [← hW]; exact hw
              cases hwk : work (s.stepCount + 1) with
              | failure =>
                have hwk2 : work (t.stepCount + 1) = WorkStep.failure := by
                  rw [← hsc]; exact hwk
                rw [stepLoop_workFail cfg1 sup work cancel fuel s w reason hs hc' hl hd hw hwk,
                  stepLoop_workFail cfg2 sup work cancel fuel t w reason ht hc2 hl2 hd2 hw2 hwk2]
                exact ⟨by simp [hlog, hS], by simp [hsc], rfl, rfl, by simp [hsi]⟩
              | emit cs =>
                have hwk2 : work (t.stepCount + 1) = WorkStep.emit cs := by
                  rw [← hsc]; exact hwk
                rw [stepLoop_handoff cfg1 sup work cancel fuel s w reason cs hs hc' hl hd hw hwk,
                  stepLoop_handoff cfg2 sup work cancel fuel t w reason cs ht hc2 hl2 hd2 hw2 hwk2]
                refine ih _ _ ⟨?_, ?_, ?_, ?_, ?_⟩
                · show (handoffBack cfg1 w (foldWorker cfg1 w cs _)).log =
                    (handoffBack cfg2 w (foldWorker cfg2 w cs _)).log
                  rw [handoffBack_log, handoffBack_log, foldWorker_log, foldWorker_log]
                  simp [hlog, hS, hH]
                · show s.stepCount + 2 = t.stepCount + 2
                  rw [hsc]
                · show (handoffBack cfg1 w (foldWorker cfg1 w cs _)).status =
                    (handoffBack cfg2 w (foldWorker cfg2 w cs _)).status
                  rw [handoffBack_status, handoffBack_status, foldWorker_status,
                    foldWorker_status]
                  show s.status = t.status
                  exact hst
                · show cfg1.supName = cfg2.supName
                  exact hS
                · show (handoffBack cfg1 w (foldWorker cfg1 w cs _)).startIndex =
                    (handoffBack cfg2 w (foldWorker cfg2 w cs _)).startIndex
                  rw [handoffBack_startIndex, handoffBack_startIndex, foldWorker_startIndex,
                    foldWorker_startIndex]
                  show s.startIndex = t.startIndex
                  exact hsi
            · have hw' : cfg1.workers.contains w = false := by simpa using hw
              have hw2 : cfg2.workers.contains w = false := by rw [← hW]; exact hw'
              rw [stepLoop_unknownRoute cfg1 sup work cancel fuel s w reason hs hc' hl hd hw',
                stepLoop_unknownRoute cfg2 sup work cancel fuel t w reason ht hc2 hl2 hd2 hw2]
              exact ⟨hlog, hsc, rfl, haa, hsi⟩
    · have ht : ¬ t.status = Status.running := by rw [← hst]; exact hs
      rw [stepLoop_terminal cfg1 sup work cancel s hs, stepLoop_terminal cfg2 sup work cancel t ht]
      exact ⟨hlog, hsc, hst, haa, hsi⟩

theorem sameRun_initState (cfg1 cfg2 : WorkflowConfig) (hS : cfg1.supName = cfg2.supName)
    (seed : List String) (start : Nat) :
    SameRun (initState cfg1 seed start) (initState cfg2 seed start) := by
  unfold initState
  refine ⟨?_, ?_, ?_, ?_, ?_⟩
  · rw [foldl_appendProduced_log, foldl_appendProduced_log]
  · rw [foldl_appendProduced_stepCount, foldl_appendProduced_stepCount]
  · rw [foldl_appendProduced_status, foldl_appendProduced_status]
  · rw [foldl_appendProduced_activeAgent, foldl_appendProduced_activeAgent]
    exact hS
  · rw [foldl_appendProduced_startIndex, foldl_appendProduced_startIndex]

/-! ## Part 2: the driver script (`src/langgraph_supervisor/example-1.py`) -/

/-- A LangChain-style message as the script sees it: the script discriminates
only `HumanMessage` and `AIMessage`; every other kind (tool output, system
prompt) falls through its `isinstance` chain. -/
inductive LCMessage where
  | humanMsg (content : String)
  | aiMsg (content : String)
  | toolMsg (content : String)
  | systemMsg (content : String)
deriving DecidableEq, Repr

/-- `format_conversation` (script lines 176–186): walk the messages in order,
appending `("Human", content)` for a `HumanMessage`, `("AI", content)` for an
`AIMessage`, and skipping any other message kind. -/
def format_conversation : List LCMessage → List (String × String)
  | [] => []
  | LCMessage.humanMsg c :: rest => ("Human", c) :: format_conversation rest
  | LCMessage.aiMsg c :: rest => ("AI", c) :: format_conversation rest
  | _ :: rest => format_conversation rest

/-- Specification-side description of the filter: the tag attached to a
message the script keeps, `none` for one it omits. -/
def humanOrAITag : LCMessage → Option (String × String)
  | LCMessage.humanMsg c => some ("Human", c)
  | LCMessage.aiMsg c => some ("AI", c)
  | _ => none

/-- The script's `isinstance(msg, AIMessage)` test. -/
def isAIMessage : LCMessage → Bool
  | LCMessage.aiMsg _ => true
  | _ => false

/-- `final_message` (script line 203): the first `AIMessage` of the reversed
result list, `None` when there is none. -/
def final_message (msgs : List LCMessage) : Option LCMessage :=
  msgs.reverse.find? isAIMessage

/-- The content of a LangChain-style message. -/
def LCMessage.contentOf : LCMessage → String
  | LCMessage.humanMsg c => c
  | LCMessage.aiMsg c => c
  | LCMessage.toolMsg c => c
  | LCMessage.systemMsg c => c

/-- Script lines 204–217: when a final message exists its content is shown;
otherwise the script reports the fixed error line and continues. -/
def finalAnswerReport (msgs : List LCMessage) : String :=
  match final_message msgs with
  | some m => m.contentOf
  | none => "No final answer found in the conversation"

/-- Script lines 137–155: the diagram-export `try` body — obtain the compiled
graph, draw the PNG, render the mermaid text; any failure of an opaque
collaborator escapes to the handler. -/
def exportDiagram (getGraph : Except String WorkflowGraph)
    (drawPng : WorkflowGraph → Except String Unit)
    (drawMermaid : WorkflowGraph → Except String String) : Except String String := do
  let g ← getGraph
  let _ ← drawPng g
  let m ← drawMermaid g
  pure m

/-- The `except` handler's log line (script line 157). -/
def mermaidErrorLog (e : String) : String :=
  "Error generating mermaid graph: " ++ e

/-- Script lines 137–173: the guarded export section followed by the workflow
invocation.  A failing export is caught and logged; the invocation happens
unconditionally afterwards and its result is returned either way. -/
def scriptTail (getGraph : Except String WorkflowGraph)
    (drawPng : WorkflowGraph → Except String Unit)
    (drawMermaid : WorkflowGraph → Except String String)
    (invokeResult : List LCMessage) : List String × List LCMessage :=
  match exportDiagram getGraph drawPng drawMermaid with
  | Except.ok _ => ([], invokeResult)
  | Except.error e => ([mermaidErrorLog e], invokeResult)

/-! ## Concrete instances: the script's workflow and the spec's scenarios -/

/-- The script's worker registry: `research_expert` and `math_expert`. -/
def exampleWorkers : List String := ["research_expert", "math_expert"]

/-- The script's compiled workflow (lines 119–129): full history with
handoff-back markers enabled. -/
def exampleCfg : WorkflowConfig :=
  ⟨exampleWorkers, "supervisor", OutputMode.fullHistory, true, 10⟩

/-- The same workflow without handoff-back markers. -/
def exampleCfgNoBack : WorkflowConfig :=
  ⟨exampleWorkers, "supervisor", OutputMode.fullHistory, false, 10⟩

/-- Opaque supervisor steps of the spec's example scenario: hand the question
to the math expert, then answer "4". -/
def exampleSup : Nat → SupStep := fun n =>
  if n = 0 then SupStep.handoff "math_expert" "math question" else SupStep.finalAnswer "4"

/-- Opaque worker steps of the spec's example scenario: one final numeric
answer. -/
def exampleWork : Nat → WorkStep := fun _ => WorkStep.emit ["2+2 equals 4."]

/-- No cancellation signal. -/
def noCancel : Nat → Bool := fun _ => false

/-- A supervisor that always hands off (the spec's iteration-limit
scenario). -/
def alwaysHandoff : Nat → SupStep := fun _ => SupStep.handoff "math_expert" "again"

/-- The iteration-limit scenario workflow: limit 1. -/
def limitOneCfg : WorkflowConfig :=
  ⟨exampleWorkers, "supervisor", OutputMode.fullHistory, true, 1⟩

/-- A supervisor that routes to a name absent from the registry. -/
def badRouteSup : Nat → SupStep := fun _ => SupStep.handoff "quantum_expert" "no such agent"

/-- A mid-run state whose step counter has already exceeded the limit-1
workflow's cap. -/
def overLimitState : ConvState := ⟨[], [], "supervisor", 5, Status.running, 0⟩

/-! ## The claims -/

/-- C1: for every compiled workflow and every invocation, the returned
transcript's `sequence_index` values are exactly the contiguous range
starting at the invocation's starting index (hence strictly increasing and
contiguous), and the runtime only ever appends: the messages of any state
persist unchanged and in place through any number of further loop
iterations. -/
theorem C1_seq_index_contiguous_append_only :
    (∀ (cfg : WorkflowConfig) (sup : Nat → SupStep) (work : Nat → WorkStep)
      (cancel : Nat → Bool) (seed : List String) (start : Nat),
      (runWorkflow cfg sup work cancel seed start).messages.map Message.seqIndex =
        List.range' start (runWorkflow cfg sup work cancel seed start).messages.length) ∧
    (∀ (cfg : WorkflowConfig) (sup : Nat → SupStep) (work : Nat → WorkStep)
      (cancel : Nat → Bool) (fuel : Nat) (s : ConvState),
      ∃ t, (stepLoop cfg sup work cancel fuel s).messages = s.messages ++ t) := by
  constructor
  · intro cfg sup work cancel seed start
    have h1 : Indexed (runWorkflow cfg sup work cancel seed start) :=
      indexed_stepLoop cfg sup work cancel _ _ (indexed_initState cfg seed start)
    have h2 : (runWorkflow cfg sup work cancel seed start).startIndex = start := by
      unfold runWorkflow
      rw [stepLoop_startIndex, initState_startIndex]
    unfold Indexed at h1
    rw [h2] at h1
    exact h1
  · intro cfg sup work cancel fuel s
    exact stepLoop_messages_mono cfg sup work cancel fuel s

/-- C2: the compiled graph's edge set is exactly the star
`{(supervisor, w)} ∪ {(w, supervisor)}` over the registered workers — in
particular every edge touches the supervisor, so no worker-to-worker edge
exists — and in every execution the transcript satisfies the span condition:
a message that opens a worker span is directly preceded by a supervisor
message, so no two consecutive spans belong to workers without an
intervening supervisor turn. -/
theorem C2_star_topology (cfg : WorkflowConfig) (hsup : cfg.supName ∉ cfg.workers) :
    (∀ e : String × String, e ∈ (buildGraph cfg.workers cfg.supName).edges ↔
      ((∃ w ∈ cfg.workers, e = (cfg.supName, w)) ∨
        (∃ w ∈ cfg.workers, e = (w, cfg.supName)))) ∧
    (∀ e ∈ (buildGraph cfg.workers cfg.supName).edges,
      e.1 = cfg.supName ∨ e.2 = cfg.supName) ∧
    (∀ (sup : Nat → SupStep) (work : Nat → WorkStep) (cancel : Nat → Bool)
      (seed : List String) (start : Nat),
      StarChain cfg (runWorkflow cfg sup work cancel seed start).messages) := by
  have hedges : ∀ e : String × String, e ∈ (buildGraph cfg.workers cfg.supName).edges ↔
      ((∃ w ∈ cfg.workers, e = (cfg.supName, w)) ∨
        (∃ w ∈ cfg.workers, e = (w, cfg.supName))) := by
    intro e
    simp only [buildGraph, List.mem_append, List.mem_map]
    constructor
    · rintro (⟨w, hw, rfl⟩ | ⟨w, hw, rfl⟩)
      · exact Or.inl ⟨w, hw, rfl⟩
      · exact Or.inr ⟨w, hw, rfl⟩
    · rintro (⟨w, hw, rfl⟩ | ⟨w, hw, rfl⟩)
      · exact Or.inl ⟨w, hw, rfl⟩
      · exact Or.inr ⟨w, hw, rfl⟩
  refine ⟨hedges, ?_, ?_⟩
  · intro e he
    rcases (hedges e).1 he with ⟨w, _, rfl⟩ | ⟨w, _, rfl⟩
    · exact Or.inl rfl
    · exact Or.inr rfl
  · intro sup work cancel seed start
    exact starChain_stepLoop cfg sup work cancel hsup _ _ (starChain_initState cfg seed start)

/-- Witness for C2 at the script's workflow and the spec's example
scenario. -/
theorem C2_star_topology_witness :
    StarChain exampleCfg
      (runWorkflow exampleCfg exampleSup exampleWork noCancel ["what is 2+2?"] 0).messages :=
  (C2_star_topology exampleCfg (by decide)).2.2 exampleSup exampleWork noCancel
    ["what is 2+2?"] 0

/-- C3: when the output mode is full history, the returned transcript's
payloads are exactly the complete append log — every message produced by any
agent, handoff markers included, in production order, with nothing dropped or
inserted. -/
theorem C3_full_history_round_trip (cfg : WorkflowConfig) (sup : Nat → SupStep)
    (work : Nat → WorkStep) (cancel : Nat → Bool) (seed : List String) (start : Nat)
    (hmode : cfg.outputMode = OutputMode.fullHistory) :
    (runWorkflow cfg sup work cancel seed start).messages.map Message.core =
      (runWorkflow cfg sup work cancel seed start).log :=
  fullSync_stepLoop cfg sup work cancel hmode _ _ (fullSync_initState cfg seed start)

/-- Witness for C3 at the script's workflow. -/
theorem C3_full_history_round_trip_witness :
    exampleCfg.outputMode = OutputMode.fullHistory ∧
    (runWorkflow exampleCfg exampleSup exampleWork noCancel
        ["what is 2+2?"] 0).messages.map Message.core =
      (runWorkflow exampleCfg exampleSup exampleWork noCancel ["what is 2+2?"] 0).log :=
  ⟨rfl, C3_full_history_round_trip exampleCfg exampleSup exampleWork noCancel
    ["what is 2+2?"] 0 rfl⟩

/-- C4: in the spec's example scenario the full-history transcript has
exactly 4 messages (human, handoff request, worker answer, supervisor answer)
without handoff-back markers, and exactly 5 with them. -/
theorem C4_example_transcript_lengths :
    (runWorkflow exampleCfgNoBack exampleSup exampleWork noCancel
      ["what is 2+2?"] 0).messages.length = 4 ∧
    (runWorkflow exampleCfg exampleSup exampleWork noCancel
      ["what is 2+2?"] 0).messages.length = 5 := by
  exact ⟨by decide, by decide⟩

/-- C5: a supervisor handoff naming a worker that does not resolve in the
registry fails the invocation with `unknownAgentRoute` for that name and
changes nothing else — in particular the active agent is not switched and no
message is appended — and the failure is fatal: the loop never resumes from
the failed state. -/
theorem C5_unknown_route (cfg : WorkflowConfig) (sup : Nat → SupStep) (work : Nat → WorkStep)
    (cancel : Nat → Bool) (fuel : Nat) (s : ConvState) (w reason : String)
    (hs : s.status = Status.running) (hc : cancel s.stepCount = false)
    (hl : ¬ cfg.iterationLimit < s.stepCount) (hd : sup s.stepCount = SupStep.handoff w reason)
    (hw : cfg.workers.contains w = false) :
    stepLoop cfg sup work cancel (fuel + 1) s =
      { s with status := Status.failed (RuntimeError.unknownAgentRoute w) } ∧
    (∀ fuel2, stepLoop cfg sup work cancel fuel2
        { s with status := Status.failed (RuntimeError.unknownAgentRoute w) } =
      { s with status := Status.failed (RuntimeError.unknownAgentRoute w) }) := by
  constructor
  · exact stepLoop_unknownRoute cfg sup work cancel fuel s w reason hs hc hl hd hw
  · exact stepLoop_terminal cfg sup work cancel _ (by simp)

/-- Witness for C5: the script's workflow with a route to an unregistered
`quantum_expert`. -/
theorem C5_unknown_route_witness :
    stepLoop exampleCfg badRouteSup exampleWork noCancel 12
        (initState exampleCfg ["hello"] 0) =
      { initState exampleCfg ["hello"] 0 with
          status := Status.failed (RuntimeError.unknownAgentRoute "quantum_expert") } :=
  (C5_unknown_route exampleCfg badRouteSup exampleWork noCancel 11
    (initState exampleCfg ["hello"] 0) "quantum_expert" "no such agent"
    (by decide) rfl (by decide) rfl (by decide)).1

/-- C6: the runtime loop always terminates — with the fuel `runWorkflow`
provides every invocation reaches a terminal status; whenever the step
counter exceeds the configured limit at the top of an iteration the
invocation ends with `iterationLimitExceeded`; and in the spec's scenario
(limit 1, a supervisor that always hands off) the invocation terminates with
`iterationLimitExceeded`. -/
theorem C6_iteration_limit_terminates :
    (∀ (cfg : WorkflowConfig) (sup : Nat → SupStep) (work : Nat → WorkStep)
      (cancel : Nat → Bool) (seed : List String) (start : Nat),
      (runWorkflow cfg sup work cancel seed start).status ≠ Status.running) ∧
    (∀ (cfg : WorkflowConfig) (sup : Nat → SupStep) (work : Nat → WorkStep)
      (cancel : Nat → Bool) (fuel : Nat) (s : ConvState),
      s.status = Status.running → cancel s.stepCount = false →
      cfg.iterationLimit < s.stepCount →
      stepLoop cfg sup work cancel (fuel + 1) s =
        { s with status := Status.failed RuntimeError.iterationLimitExceeded }) ∧
    (runWorkflow limitOneCfg alwaysHandoff exampleWork noCancel ["hi"] 0).status =
      Status.failed RuntimeError.iterationLimitExceeded := by
  refine ⟨?_, ?_, ?_⟩
  · intro cfg sup work cancel seed start
    unfold runWorkflow
    have h0 : (initState cfg seed start).stepCount = 0 := by
      unfold initState
      exact foldl_appendProduced_stepCount _ seed _
    apply stepLoop_terminates
    · omega
    · omega
  · intro cfg sup work cancel fuel s hs hc hl
    exact stepLoop_limit cfg sup work cancel fuel s hs hc hl
  · decide

/-- Witness for C6 at a state whose counter exceeds the cap. -/
theorem C6_iteration_limit_witness :
    stepLoop limitOneCfg alwaysHandoff exampleWork noCancel 1 overLimitState =
      { overLimitState with status := Status.failed RuntimeError.iterationLimitExceeded } :=
  C6_iteration_limit_terminates.2.1 limitOneCfg alwaysHandoff exampleWork noCancel 0
    overLimitState rfl rfl (by decide)

/-- C7: for identical opaque step results, the condensed (last-message)
transcript is an order-preserving subsequence of the full-history transcript:
the two runs build the same append log, the full transcript is exactly that
log, and the condensed transcript is a subsequence of it. -/
theorem C7_last_message_sublist_of_full (cfg : WorkflowConfig) (sup : Nat → SupStep)
    (work : Nat → WorkStep) (cancel : Nat → Bool) (seed : List String) (start : Nat) :
    List.Sublist
      ((runWorkflow { cfg with outputMode := OutputMode.lastMessage }
        sup work cancel seed start).messages.map Message.core)
      ((runWorkflow { cfg with outputMode := OutputMode.fullHistory }
        sup work cancel seed start).messages.map Message.core) := by
  have hsub : CondensedSub (runWorkflow { cfg with outputMode := OutputMode.lastMessage }
      sup work cancel seed start) :=
    condensedSub_stepLoop _ sup work cancel _ _ (condensedSub_initState _ seed start)
  have hfull : FullSync (runWorkflow { cfg with outputMode := OutputMode.fullHistory }
      sup work cancel seed start) :=
    fullSync_stepLoop _ sup work cancel rfl _ _ (fullSync_initState _ seed start)
  have hsim : SameRun
      (runWorkflow { cfg with outputMode := OutputMode.lastMessage } sup work cancel seed start)
      (runWorkflow { cfg with outputMode := OutputMode.fullHistory } sup work cancel seed start) := by
    unfold runWorkflow
    exact sameRun_stepLoop { cfg with outputMode := OutputMode.lastMessage }
      { cfg with outputMode := OutputMode.fullHistory } rfl rfl rfl rfl sup work cancel
      _ _ _ (sameRun_initState _ _ rfl seed start)
  unfold FullSync at hfull
  unfold CondensedSub at hsub
  rw [hfull, ← hsim.1]
  exact hsub

/-- C8: `format_conversation` is exactly the order-preserving subsequence of
Human ("Human") and AI ("AI") messages, each paired with its content; tool
and system messages are silently omitted. -/
theorem C8_format_conversation_filterMap (msgs : List LCMessage) :
    format_conversation msgs = msgs.filterMap humanOrAITag := by
  induction msgs with
  | nil => rfl
  | cons m rest ih => cases m <;> simp [format_conversation, humanOrAITag, ih]

/-- C9: final-answer extraction is total: it returns the last `AIMessage` of
the result when one exists (the last element of the AI filter), and `none`
when there is none, in which case the script reports the fixed error line
instead of failing. -/
theorem C9_final_message_total (msgs : List LCMessage) :
    final_message msgs = (msgs.filter isAIMessage).getLast? ∧
    (msgs.filter isAIMessage = [] →
      finalAnswerReport msgs = "No final answer found in the conversation") := by
  have h : final_message msgs = (msgs.filter isAIMessage).getLast? := by
    unfold final_message
    rw [← List.filter_head?, List.filter_reverse, ← List.getLast?_eq_head?_reverse]
  refine ⟨h, ?_⟩
  intro he
  unfold finalAnswerReport
  rw [h, he]
  rfl

/-- Witness for C9 on a transcript with no AI message. -/
theorem C9_final_message_witness :
    final_message [LCMessage.humanMsg "hi", LCMessage.toolMsg "lookup"] =
      ([LCMessage.humanMsg "hi", LCMessage.toolMsg "lookup"].filter isAIMessage).getLast? ∧
    finalAnswerReport [LCMessage.humanMsg "hi", LCMessage.toolMsg "lookup"] =
      "No final answer found in the conversation" :=
  ⟨(C9_final_message_total [LCMessage.humanMsg "hi", LCMessage.toolMsg "lookup"]).1,
    (C9_final_message_total [LCMessage.humanMsg "hi", LCMessage.toolMsg "lookup"]).2 (by decide)⟩

/-- C10: a failure anywhere in the diagram-export block is caught: the error
is logged with the script's message and the workflow invocation still runs,
returning its result unchanged. -/
theorem C10_export_failure_is_nonfatal (getGraph : Except String WorkflowGraph)
    (drawPng : WorkflowGraph → Except String Unit)
    (drawMermaid : WorkflowGraph → Except String String)
    (invokeResult : List LCMessage) :
    (scriptTail getGraph drawPng drawMermaid invokeResult).2 = invokeResult ∧
    (∀ e, exportDiagram getGraph drawPng drawMermaid = Except.error e →
      (scriptTail getGraph drawPng drawMermaid invokeResult).1 = [mermaidErrorLog e]) := by
  constructor
  · unfold scriptTail
    cases exportDiagram getGraph drawPng drawMermaid <;> rfl
  · intro e he
    unfold scriptTail
    rw [he]

/-- Witness for C10: the graph backend fails, yet the invocation result is
returned and the error is logged. -/
theorem C10_export_failure_witness :
    (scriptTail (Except.error "graph backend unavailable") (fun _ => Except.ok ())
      (fun _ => Except.ok "") [LCMessage.aiMsg "4"]).2 = [LCMessage.aiMsg "4"] ∧
    (scriptTail (Except.error "graph backend unavailable") (fun _ => Except.ok ())
      (fun _ => Except.ok "") [LCMessage.aiMsg "4"]).1 =
      [mermaidErrorLog "graph backend unavailable"] :=
  ⟨(C10_export_failure_is_nonfatal (Except.error "graph backend unavailable")
      (fun _ => Except.ok ()) (fun _ => Except.ok "") [LCMessage.aiMsg "4"]).1,
    (C10_export_failure_is_nonfatal (Except.error "graph backend unavailable")
      (fun _ => Except.ok ()) (fun _ => Except.ok "") [LCMessage.aiMsg "4"]).2
      "graph backend unavailable" rfl⟩

end LGS
